import Mathlib

/-!
# Verification of the Readwise → Notion URL/tag sync script

Shallow embedding of `src/sync.js`: the highlight normalizer
(`normalizeHighlights`), the Readwise paginator's request construction and
the orchestrator's page loop (`fetchReadwiseParams`, `mainFetchCalls`), the
Notion matcher (`findPageByUrl`) and the upserter (`upsertUrlWithTags`).
The Notion database is modelled as an explicit list of pages, and every
outbound destination-API request an upsert call performs is recorded in an
`ApiCall` trace.
-/

namespace RWSync

/-- JavaScript truthiness of an optional string value: `none` stands for
`null`/`undefined` (falsy) and the empty string is falsy as well. -/
def jsTruthy : Option String → Bool
  | none => false
  | some s => s ≠ ""

/-- JavaScript `String.prototype.trim()`: remove leading and trailing
whitespace. (Defined over the character list so that it is fully
kernel-reducible.) -/
def jsTrim (s : String) : String :=
  ⟨((s.data.dropWhile Char.isWhitespace).reverse.dropWhile
      Char.isWhitespace).reverse⟩

/-- JavaScript `a || b` for an optional string `a` and a string default `b`
(used for the `|| ''` defaulting throughout `normalizeHighlights`). -/
def jsOr (a : Option String) (b : String) : String :=
  match a with
  | some s => if s = "" then b else s
  | none => b

/-- One entry of a raw highlight's `tags` array: a bare string, an object
whose `name` field is a string, or any other shape (`typeof t?.name` not a
string), which `normalizeHighlights` maps to the empty string and then
filters away. -/
inductive RawTag where
  | str (s : String)
  | nameObj (name : String)
  | malformed
deriving DecidableEq

/-- The tag-shape mapping in `normalizeHighlights`:
`typeof t === 'string' ? t : (typeof t?.name === 'string' ? t.name : '')`. -/
def tagToString : RawTag → String
  | .str s => s
  | .nameObj n => n
  | .malformed => ""

/-- A raw highlight as received from the Readwise export API. Optional
string fields use `none` for `null`/`undefined`; `tags` is `none` when the
field is not an array (`Array.isArray(h.tags)` fails). `id` is taken after
the `String(h.id)` conversion. -/
structure RawHighlight where
  id : String
  text : Option String
  note : Option String
  location : Option String
  highlighted_at : Option String
  created_at : Option String
  url : Option String
  tags : Option (List RawTag)
deriving DecidableEq

/-- A raw book from the Readwise export API, carrying its highlights. -/
structure RawBook where
  title : Option String
  author : Option String
  source_url : Option String
  category : Option String
  highlights : Option (List RawHighlight)
deriving DecidableEq

/-- The flat highlight record produced by `normalizeHighlights`. -/
structure NormalizedHighlight where
  id : String
  text : String
  note : String
  location : Option String
  highlighted_at : Option String
  url : String
  tags : List String
  book_title : String
  book_author : String
  source_url : String
  category : String
deriving DecidableEq

/-- Tag cleaning in `normalizeHighlights`: map every entry of the raw
`tags` array (defaulted to `[]` when not an array) through the shape
mapping and `.filter(Boolean)` the results. -/
def normalizeTags (rawTags : Option (List RawTag)) : List String :=
  ((rawTags.getD []).map tagToString).filter (fun s => s ≠ "")

/-- The record pushed by `normalizeHighlights` for one raw highlight `h` of
one raw book `book` (the book supplies the `meta` fields). -/
def normalizeBookHighlight (book : RawBook) (h : RawHighlight) :
    NormalizedHighlight :=
  { id := h.id
    text := jsOr h.text ""
    note := jsOr h.note ""
    location := h.location
    highlighted_at :=
      if jsTruthy h.highlighted_at then h.highlighted_at
      else if jsTruthy h.created_at then h.created_at
      else none
    url := jsOr h.url (jsOr book.source_url "")
    tags := normalizeTags h.tags
    book_title := jsOr book.title ""
    book_author := jsOr book.author ""
    source_url := jsOr book.source_url ""
    category := jsOr book.category "" }

/-- `normalizeHighlights(results)`: flatten the (possibly `null`) array of
raw books, preserving book order and highlight order within each book. -/
def normalizeHighlights (results : Option (List RawBook)) :
    List NormalizedHighlight :=
  (results.getD []).flatMap
    (fun book => (book.highlights.getD []).map (normalizeBookHighlight book))

/-- The base Notion properties built by `upsertUrlWithTags`; a `none` in
`Source`/`Book`/`Author` models the `undefined` branch, i.e. the property
is omitted from the request entirely (the destination API distinguishes
omitting a property from clearing it). -/
structure BaseProperties where
  Title : String
  URL : String
  Source : Option String
  Book : Option String
  Author : Option String
deriving DecidableEq

/-- The full property payload of a create or update request:
`{...baseProperties, Tags: {multi_select: ...}}`. -/
structure PageProperties where
  base : BaseProperties
  Tags : List String
deriving DecidableEq

/-- A destination (Notion) database page, as visible to this script: its
id and the properties the script reads and writes. A page whose `Tags`
multi-select is absent is modelled by an empty list, exactly what the
`... || []` fallback in the code reads back. -/
structure Page where
  id : String
  props : PageProperties
deriving DecidableEq

/-- One outbound request to the destination API made by
`upsertUrlWithTags`: the `findPageByUrl` database query, a page update, or
a page creation. -/
inductive ApiCall where
  | query (url : String)
  | update (page_id : String) (props : PageProperties)
  | create (props : PageProperties)
deriving DecidableEq

/-- `findPageByUrl(url)`: query the database with an equality filter on the
`URL` property and `page_size: 1`, returning the first match in database
order, or `null`. -/
def findPageByUrl (url : String) (db : List Page) : Option Page :=
  db.find? (fun p => p.props.base.URL == url)

/-- The `baseProperties` object built in `upsertUrlWithTags` (with `url`
already trimmed): `Title` is `h.book_title?.trim() || url`, `URL` is the
url, and `Source`/`Book`/`Author` are present only when `h.category` /
`h.book_title` / `h.book_author` are truthy. -/
def basePropertiesOf (h : NormalizedHighlight) (url : String) :
    BaseProperties :=
  { Title := if jsTrim h.book_title = "" then url else jsTrim h.book_title
    URL := url
    Source := if h.category = "" then none else some h.category
    Book := if h.book_title = "" then none else some h.book_title
    Author := if h.book_author = "" then none else some h.book_author }

/-- First-occurrence deduplication of a list of strings: the semantics of
JavaScript `Array.from(new Set(list))`, which keeps each element at its
first insertion position. -/
def dedupFirst : List String → List String
  | [] => []
  | a :: l => a :: (dedupFirst l).filter (fun x => x ≠ a)

/-- The tag merge in `upsertUrlWithTags`:
`Array.from(new Set([...existingTags, ...tags]))`. -/
def mergedTags (existingTags tags : List String) : List String :=
  dedupFirst (existingTags ++ tags)

/-- The update condition in `upsertUrlWithTags`:
`merged.length !== existingTags.length || merged.some((t, i) => t !== existingTags[i])`.
An out-of-range index reads `undefined` (`none`), which is `!==` any
string. -/
def needUpdateCheck (merged existingTags : List String) : Bool :=
  decide (merged.length ≠ existingTags.length) ||
    (List.range merged.length).any
      (fun i => decide (merged[i]? ≠ existingTags[i]?))

/-- Destination-side semantics of one property of an update request: a
property present in the patch replaces the stored value, an omitted
(`undefined`) property leaves the stored value untouched — the destination
API distinguishes "omit" from "clear". -/
def patchField (new old : Option String) : Option String :=
  match new with
  | some s => some s
  | none => old

/-- Destination-side effect of `notion.pages.update` on the targeted page:
`Title`, `URL` and `Tags` are always present in the patch the script sends,
while `Source`/`Book`/`Author` are patched only when present. The
destination keeps a multi-select as a set of named tags (the data model's
`Tags (set of string)`), so the persisted `Tags` state is the sent list
with duplicates removed, first occurrence kept. -/
def applyUpdate (p : Page) (pr : PageProperties) : Page :=
  { id := p.id
    props :=
      { base :=
          { Title := pr.base.Title
            URL := pr.base.URL
            Source := patchField pr.base.Source p.props.base.Source
            Book := patchField pr.base.Book p.props.base.Book
            Author := patchField pr.base.Author p.props.base.Author }
        Tags := dedupFirst pr.Tags } }

/-- Destination-side effect of `notion.pages.update({page_id, ...})` on the
database: the page with the given id (ids are unique in the destination;
the first occurrence is taken) receives the patch, all others are
untouched. -/
def updatePage : List Page → String → PageProperties → List Page
  | [], _, _ => []
  | p :: rest, pid, pr =>
      if p.id = pid then applyUpdate p pr :: rest
      else p :: updatePage rest pid pr

/-- `upsertUrlWithTags(h)` over an explicit destination database `db`.
`freshId` is the `id` field of the `notion.pages.create` response when the
create path is taken (the id the destination assigns to the new page); the
boolean result is `!!resp?.id`. Returns the boolean result, the trace of
destination-API requests issued, and the database after the call. The
requests in the trace carry exactly the payloads the script sends; the
stored page state applies the destination's multi-select set semantics
(`dedupFirst` of the sent `Tags`, as in `applyUpdate`). -/
def upsertUrlWithTags (h : NormalizedHighlight) (db : List Page)
    (freshId : String) : Bool × List ApiCall × List Page :=
  let url := jsTrim h.url
  if url = "" then (false, [], db)
  else
    let tags := h.tags.filter (fun t => t ≠ "")
    if tags.isEmpty then (false, [], db)
    else
      let existing := findPageByUrl url db
      let baseProperties := basePropertiesOf h url
      match existing with
      | some page =>
          let existingTags := page.props.Tags
          let merged := mergedTags existingTags tags
          let needUpdate := needUpdateCheck merged existingTags
          if needUpdate then
            (false,
              [ApiCall.query url, ApiCall.update page.id ⟨baseProperties, merged⟩],
              updatePage db page.id ⟨baseProperties, merged⟩)
          else
            (false, [ApiCall.query url], db)
      | none =>
          (freshId != "",
            [ApiCall.query url, ApiCall.create ⟨baseProperties, tags⟩],
            db ++ [{ id := freshId,
                     props := ⟨baseProperties, dedupFirst tags⟩ }])

/-- One page of the Readwise export response:
`{ results: [...], nextPageCursor: '...' }`. -/
structure ExportPage where
  results : Option (List RawBook)
  nextPageCursor : Option String

/-- The query-parameter construction of `fetchReadwisePage(pageCursor)`:
`params = {}; if (pageCursor) params.pageCursor = pageCursor` — the
`pageCursor` parameter is included in the request exactly when the cursor
is truthy, and omitted (`none`) otherwise, in particular on the first call
where the cursor is `null`. -/
def fetchReadwiseParams (pageCursor : Option String) : Option String :=
  if jsTruthy pageCursor then pageCursor else none

/-- The cursor the orchestrator's loop holds after `n` iterations when it
started from cursor `c`, against a source `src` mapping a request cursor to
the returned page: `cursor := page.nextPageCursor` each round. -/
def cursorIterFrom (src : Option String → ExportPage) :
    Option String → Nat → Option String
  | c, 0 => c
  | c, n + 1 => cursorIterFrom src (src c).nextPageCursor n

/-- The `main` loop's sequence of `fetchReadwisePage` invocations (each
element is the cursor argument of one invocation), starting from cursor
`cursor` with `fuel` remaining permitted fetches: fetch a page, stop when
`nextPageCursor` is falsy, otherwise continue from it. `none` means the
fuel ran out before the loop terminated. -/
def mainFetchCalls (src : Option String → ExportPage) :
    Nat → Option String → Option (List (Option String))
  | 0, _ => none
  | fuel + 1, cursor =>
      let page := src cursor
      if jsTruthy page.nextPageCursor then
        (mainFetchCalls src fuel page.nextPageCursor).map
          (fun calls => cursor :: calls)
      else
        some [cursor]

/-! ### Properties of first-occurrence deduplication -/

theorem mem_dedupFirst {x : String} : ∀ {l : List String},
    x ∈ dedupFirst l ↔ x ∈ l := by
  intro l
  induction l with
  | nil => simp [dedupFirst]
  | cons a t ih =>
      rw [dedupFirst]
      by_cases hxa : x = a
      · subst hxa; simp
      · simp only [List.mem_cons, List.mem_filter, ih, decide_eq_true_iff]
        constructor
        · rintro (h | ⟨h, _⟩)
          · exact absurd h hxa
          · exact Or.inr h
        · rintro (h | h)
          · exact absurd h hxa
          · exact Or.inr ⟨h, hxa⟩

theorem dedupFirst_nodup : ∀ (l : List String), (dedupFirst l).Nodup := by
  intro l
  induction l with
  | nil => simp [dedupFirst]
  | cons a t ih =>
      rw [dedupFirst]
      refine List.nodup_cons.mpr ⟨?_, ih.filter _⟩
      intro hmem
      have := (List.mem_filter.mp hmem).2
      simp at this

theorem dedupFirst_eq_self {l : List String} (h : l.Nodup) :
    dedupFirst l = l := by
  induction l with
  | nil => rw [dedupFirst]
  | cons a t ih =>
      rw [dedupFirst, ih (List.nodup_cons.mp h).2]
      have hnot : a ∉ t := (List.nodup_cons.mp h).1
      have hf : t.filter (fun x => x ≠ a) = t := by
        apply List.filter_eq_self.mpr
        intro x hx
        simp only [decide_eq_true_iff]
        intro hxa
        exact hnot (hxa ▸ hx)
      rw [hf]

theorem dedupFirst_append : ∀ (l₁ l₂ : List String),
    dedupFirst (l₁ ++ l₂) =
      dedupFirst l₁ ++ (dedupFirst l₂).filter (fun x => x ∉ l₁) := by
  intro l₁
  induction l₁ with
  | nil =>
      intro l₂
      simp [dedupFirst]
  | cons a t ih =>
      intro l₂
      rw [List.cons_append, dedupFirst, ih l₂, dedupFirst, List.cons_append]
      congr 1
      rw [List.filter_append, List.filter_filter]
      congr 1
      apply List.filter_congr
      intro x _
      by_cases hxa : x = a
      · subst hxa; simp
      · simp [hxa]

theorem dedupFirst_eq_nil_iff {l : List String} :
    dedupFirst l = [] ↔ l = [] := by
  cases l with
  | nil => rw [dedupFirst]
  | cons a _ => rw [dedupFirst]; simp

/-! ### Properties of the merge and the update condition -/

theorem mem_mergedTags {x : String} {ex ts : List String} :
    x ∈ mergedTags ex ts ↔ x ∈ ex ∨ x ∈ ts := by
  rw [mergedTags, mem_dedupFirst, List.mem_append]

theorem mergedTags_nodup (ex ts : List String) :
    (mergedTags ex ts).Nodup :=
  dedupFirst_nodup _

theorem mergedTags_eq_append {ex ts : List String} (h : ex.Nodup) :
    mergedTags ex ts = ex ++ (dedupFirst ts).filter (fun x => x ∉ ex) := by
  rw [mergedTags, dedupFirst_append, dedupFirst_eq_self h]

theorem mergedTags_eq_self {ex ts : List String} (hnd : ex.Nodup)
    (hsub : ∀ t ∈ ts, t ∈ ex) : mergedTags ex ts = ex := by
  rw [mergedTags_eq_append hnd]
  have hf : (dedupFirst ts).filter (fun x => x ∉ ex) = [] := by
    apply List.filter_eq_nil_iff.mpr
    intro x hx
    simp [hsub x (mem_dedupFirst.mp hx)]
  rw [hf, List.append_nil]

theorem mergedTags_idem (ex ts : List String) :
    mergedTags (mergedTags ex ts) ts = mergedTags ex ts :=
  mergedTags_eq_self (mergedTags_nodup ex ts)
    (fun _ ht => mem_mergedTags.mpr (Or.inr ht))

theorem needUpdateCheck_eq_true_iff {merged existingTags : List String} :
    needUpdateCheck merged existingTags = true ↔ merged ≠ existingTags := by
  rw [needUpdateCheck, Bool.or_eq_true, decide_eq_true_iff, List.any_eq_true]
  constructor
  · rintro (hlen | ⟨i, _, hne⟩)
    · intro he; exact hlen (he ▸ rfl)
    · intro he
      rw [decide_eq_true_iff] at hne
      exact hne (he ▸ rfl)
  · intro hne
    by_cases hlen : merged.length = existingTags.length
    · right
      by_contra hall
      push_neg at hall
      apply hne
      apply List.ext_getElem?
      intro i
      by_cases hi : i < merged.length
      · have := hall i (List.mem_range.mpr hi)
        simpa using this
      · have h1 : merged[i]? = none := by
          rw [List.getElem?_eq_none]; omega
        have h2 : existingTags[i]? = none := by
          rw [List.getElem?_eq_none]; omega
        rw [h1, h2]
    · exact Or.inl hlen

theorem needUpdateCheck_self (l : List String) :
    needUpdateCheck l l = false := by
  by_contra hne
  rw [Bool.not_eq_false, needUpdateCheck_eq_true_iff] at hne
  exact hne rfl

/-! ### Properties of the destination database model -/

theorem findPageByUrl_append_of_none {url : String} {db l₂ : List Page}
    (hnone : findPageByUrl url db = none) :
    findPageByUrl url (db ++ l₂) = findPageByUrl url l₂ := by
  induction db with
  | nil => rfl
  | cons q rest ih =>
      rw [findPageByUrl] at hnone
      by_cases hq : (q.props.base.URL == url) = true
      · rw [List.find?_cons_of_pos (p := fun r => r.props.base.URL == url)
          rest hq] at hnone
        exact absurd hnone (by simp)
      · rw [List.find?_cons_of_neg (p := fun r => r.props.base.URL == url)
          rest (by simpa using hq)] at hnone
        rw [List.cons_append, findPageByUrl,
          List.find?_cons_of_neg (p := fun r => r.props.base.URL == url)
            (rest ++ l₂) (by simpa using hq)]
        exact ih hnone

theorem findPageByUrl_mem {url : String} {db : List Page} {P : Page}
    (hf : findPageByUrl url db = some P) : P ∈ db :=
  List.mem_of_find?_eq_some hf

theorem findPageByUrl_updatePage {url : String} {pr : PageProperties}
    (hurl : pr.base.URL = url) :
    ∀ {db : List Page} {P : Page}, (db.map Page.id).Nodup →
      findPageByUrl url db = some P →
      findPageByUrl url (updatePage db P.id pr) =
        some (applyUpdate P pr) := by
  intro db
  induction db with
  | nil =>
      intro P _ hf
      simp [findPageByUrl] at hf
  | cons q rest ih =>
      intro P hnd hf
      rw [findPageByUrl] at hf
      by_cases hq : (q.props.base.URL == url) = true
      · rw [List.find?_cons_of_pos (p := fun r => r.props.base.URL == url)
          rest hq] at hf
        have hPq : P = q := (Option.some.inj hf).symm
        subst hPq
        rw [updatePage, if_pos rfl, findPageByUrl,
          List.find?_cons_of_pos (p := fun r => r.props.base.URL == url)
            rest (by simp [applyUpdate, hurl])]
      · rw [List.find?_cons_of_neg (p := fun r => r.props.base.URL == url)
          rest (by simpa using hq)] at hf
        have hPrest : P ∈ rest := List.mem_of_find?_eq_some hf
        have hid : q.id ≠ P.id := by
          intro he
          have : P.id ∈ rest.map Page.id := List.mem_map_of_mem Page.id hPrest
          rw [List.map_cons, List.nodup_cons] at hnd
          exact hnd.1 (he ▸ this)
        rw [updatePage, if_neg hid, findPageByUrl,
          List.find?_cons_of_neg (p := fun r => r.props.base.URL == url)
            (updatePage rest P.id pr) (by simpa using hq)]
        exact ih (by rw [List.map_cons, List.nodup_cons] at hnd; exact hnd.2) hf

/-! ### Shape lemmas for `upsertUrlWithTags` -/

theorem upsert_of_url_empty {h : NormalizedHighlight} {db : List Page}
    {fid : String} (hu : jsTrim h.url = "") :
    upsertUrlWithTags h db fid = (false, [], db) := by
  simp [upsertUrlWithTags, hu]

theorem upsert_of_tags_empty {h : NormalizedHighlight} {db : List Page}
    {fid : String} (ht : h.tags.filter (fun t => t ≠ "") = []) :
    upsertUrlWithTags h db fid = (false, [], db) := by
  by_cases hu : jsTrim h.url = ""
  · simp [upsertUrlWithTags, hu]
  · simp only [upsertUrlWithTags]
    rw [if_neg hu, ht]
    simp

theorem upsert_of_found {h : NormalizedHighlight} {db : List Page}
    {fid : String} {page : Page}
    (hu : jsTrim h.url ≠ "")
    (ht : h.tags.filter (fun t => t ≠ "") ≠ [])
    (hfind : findPageByUrl (jsTrim h.url) db = some page) :
    upsertUrlWithTags h db fid =
      (if needUpdateCheck
          (mergedTags page.props.Tags (h.tags.filter (fun t => t ≠ "")))
          page.props.Tags then
        (false,
          [ApiCall.query (jsTrim h.url),
           ApiCall.update page.id
             ⟨basePropertiesOf h (jsTrim h.url),
              mergedTags page.props.Tags (h.tags.filter (fun t => t ≠ ""))⟩],
          updatePage db page.id
            ⟨basePropertiesOf h (jsTrim h.url),
             mergedTags page.props.Tags (h.tags.filter (fun t => t ≠ ""))⟩)
      else
        (false, [ApiCall.query (jsTrim h.url)], db)) := by
  simp only [upsertUrlWithTags]
  rw [if_neg hu, if_neg (by simpa using ht), hfind]

theorem upsert_of_not_found {h : NormalizedHighlight} {db : List Page}
    {fid : String}
    (hu : jsTrim h.url ≠ "")
    (ht : h.tags.filter (fun t => t ≠ "") ≠ [])
    (hfind : findPageByUrl (jsTrim h.url) db = none) :
    upsertUrlWithTags h db fid =
      (fid != "",
        [ApiCall.query (jsTrim h.url),
         ApiCall.create
           ⟨basePropertiesOf h (jsTrim h.url), h.tags.filter (fun t => t ≠ "")⟩],
        db ++ [{ id := fid,
                 props := ⟨basePropertiesOf h (jsTrim h.url),
                           dedupFirst
                             (h.tags.filter (fun t => t ≠ ""))⟩ }]) := by
  simp only [upsertUrlWithTags]
  rw [if_neg hu, if_neg (by simpa using ht), hfind]

/-! ### Properties of the page-fetch loop -/

theorem fetchReadwiseParams_of_truthy {c : Option String}
    (hc : jsTruthy c = true) : fetchReadwiseParams c = c := by
  rw [fetchReadwiseParams, if_pos hc]

theorem mainFetchCalls_succ (src : Option String → ExportPage)
    (fuel : Nat) (c : Option String) :
    mainFetchCalls src (fuel + 1) c =
      if jsTruthy (src c).nextPageCursor = true then
        (mainFetchCalls src fuel (src c).nextPageCursor).map
          (fun calls => c :: calls)
      else some [c] := rfl

theorem mainFetchCalls_of_stop (src : Option String → ExportPage) :
    ∀ (n : Nat) (c : Option String),
      jsTruthy (src (cursorIterFrom src c n)).nextPageCursor = false →
      ∃ calls, mainFetchCalls src (n + 1) c = some calls := by
  intro n
  induction n with
  | zero =>
      intro c hstop
      rw [cursorIterFrom] at hstop
      exact ⟨[c], by rw [mainFetchCalls_succ, if_neg (by simp [hstop])]⟩
  | succ n ih =>
      intro c hstop
      by_cases htr : jsTruthy (src c).nextPageCursor = true
      · rw [cursorIterFrom] at hstop
        obtain ⟨calls, hc⟩ := ih (src c).nextPageCursor hstop
        refine ⟨c :: calls, ?_⟩
        rw [mainFetchCalls_succ, if_pos htr, hc]
        rfl
      · exact ⟨[c], by rw [mainFetchCalls_succ, if_neg htr]⟩

theorem mainFetchCalls_spec (src : Option String → ExportPage) :
    ∀ (fuel : Nat) (c : Option String) (calls : List (Option String)),
      mainFetchCalls src fuel c = some calls →
      calls.head? = some c ∧
        List.Chain'
          (fun a b => b = (src a).nextPageCursor ∧ jsTruthy b = true)
          calls := by
  intro fuel
  induction fuel with
  | zero =>
      intro c calls hcalls
      rw [mainFetchCalls] at hcalls
      exact absurd hcalls (by simp)
  | succ n ih =>
      intro c calls hcalls
      rw [mainFetchCalls_succ] at hcalls
      by_cases htr : jsTruthy (src c).nextPageCursor = true
      · rw [if_pos htr] at hcalls
        cases hrec : mainFetchCalls src n (src c).nextPageCursor with
        | none => rw [hrec] at hcalls; simp at hcalls
        | some rest =>
            rw [hrec] at hcalls
            have hcons : c :: rest = calls := by
              injection hcalls
            subst hcons
            obtain ⟨hd, hch⟩ := ih _ _ hrec
            refine ⟨rfl, List.chain'_cons'.mpr ⟨?_, hch⟩⟩
            intro b hb
            rw [hd] at hb
            simp only [Option.mem_def, Option.some.injEq] at hb
            subst hb
            exact ⟨rfl, htr⟩
      · rw [if_neg htr] at hcalls
        have hsing : [c] = calls := by
          injection hcalls
        subst hsing
        exact ⟨rfl, List.chain'_singleton c⟩

/-- Two lists differ exactly when their lengths differ or some position
(read with out-of-range as `none`, JavaScript `undefined`) differs. -/
theorem list_ne_iff_length_or_getElem {l₁ l₂ : List String} :
    l₁ ≠ l₂ ↔ l₁.length ≠ l₂.length ∨ ∃ i : Nat, l₁[i]? ≠ l₂[i]? := by
  constructor
  · intro hne
    by_cases hlen : l₁.length = l₂.length
    · right
      by_contra hall
      push_neg at hall
      exact hne (List.ext_getElem? hall)
    · exact Or.inl hlen
  · rintro (hlen | ⟨i, hi⟩) he
    · exact hlen (he ▸ rfl)
    · exact hi (he ▸ rfl)

/-! ### Concrete sample values used by the witnesses and counterexamples -/

/-- A well-formed highlight: nonblank url, one tag. -/
def sampleHighlight : NormalizedHighlight :=
  { id := "1", text := "t", note := "", location := none,
    highlighted_at := none, url := "https://x.com", tags := ["t1"],
    book_title := "Book A", book_author := "", source_url := "",
    category := "books" }

/-- A highlight with a whitespace-only url. -/
def blankUrlHighlight : NormalizedHighlight :=
  { id := "1", text := "", note := "", location := none,
    highlighted_at := none, url := "   ", tags := ["t1"],
    book_title := "", book_author := "", source_url := "", category := "" }

/-- A highlight carrying changed book metadata for the same url, with the
tag `t1` already present on the destination record. -/
def changedMetaHighlight : NormalizedHighlight :=
  { id := "1", text := "", note := "", location := none,
    highlighted_at := none, url := "https://x.com", tags := ["t1"],
    book_title := "Changed Title", book_author := "Changed Author",
    source_url := "", category := "articles" }

/-- A highlight with two (distinct) tags. -/
def twoTagHighlight : NormalizedHighlight :=
  { id := "1", text := "", note := "", location := none,
    highlighted_at := none, url := "https://x.com", tags := ["t1", "t2"],
    book_title := "", book_author := "", source_url := "", category := "" }

/-- A highlight whose tag list contains a duplicate entry. -/
def dupTagHighlight : NormalizedHighlight :=
  { id := "1", text := "", note := "", location := none,
    highlighted_at := none, url := "https://x.com", tags := ["a", "a"],
    book_title := "", book_author := "", source_url := "", category := "" }

/-- An existing destination page for `https://x.com` tagged `t1`. -/
def samplePage : Page :=
  { id := "p1",
    props :=
      { base :=
          { Title := "Old", URL := "https://x.com", Source := none,
            Book := none, Author := none },
        Tags := ["t1"] } }

/-! ### The claims -/

/-- Claim C2: a highlight whose trimmed url is empty, or whose tag list
after filtering out falsy entries is empty, is skipped entirely:
`upsertUrlWithTags` returns `false`, issues no destination-API request at
all (in particular `findPageByUrl` is never invoked — the call trace is
empty), and the database is unchanged. -/
theorem C2_skip_emits_no_calls (h : NormalizedHighlight) (db : List Page)
    (fid : String)
    (hskip : jsTrim h.url = "" ∨ h.tags.filter (fun t => t ≠ "") = []) :
    upsertUrlWithTags h db fid = (false, [], db) := by
  cases hskip with
  | inl hu => exact upsert_of_url_empty hu
  | inr ht => exact upsert_of_tags_empty ht

theorem C2_skip_emits_no_calls_witness :
    upsertUrlWithTags blankUrlHighlight [] "p1" = (false, [], []) :=
  C2_skip_emits_no_calls blankUrlHighlight [] "p1" (Or.inl (by decide))

/-- Claim C6: for every raw input (including `null`), the normalizer's
output length is the sum over all books of that book's highlight count —
tag-shape filtering never drops a highlight. -/
theorem C6_normalize_length_is_sum (results : Option (List RawBook)) :
    (normalizeHighlights results).length =
      ((results.getD []).map
        (fun b => (b.highlights.getD []).length)).sum := by
  rw [normalizeHighlights]
  induction results.getD [] with
  | nil => rfl
  | cons b bs ih => simp [ih]

/-- Claim C10: when an existing page is found and the merged tag list is
positionally equal to the existing tag list, no update request is issued:
only the lookup query is performed and the database — hence every property
of the existing record, `Title`, `Source`, `Book` and `Author` included —
is left exactly as it was, whatever book metadata the incoming highlight
carries. -/
theorem C10_no_update_leaves_record_unchanged (h : NormalizedHighlight)
    (db : List Page) (fid : String) (page : Page)
    (hu : jsTrim h.url ≠ "")
    (ht : h.tags.filter (fun t => t ≠ "") ≠ [])
    (hfind : findPageByUrl (jsTrim h.url) db = some page)
    (hmerged : mergedTags page.props.Tags (h.tags.filter (fun t => t ≠ "")) =
      page.props.Tags) :
    upsertUrlWithTags h db fid =
      (false, [ApiCall.query (jsTrim h.url)], db) := by
  rw [upsert_of_found hu ht hfind, hmerged,
    if_neg (by rw [needUpdateCheck_self]; simp)]

theorem C10_witness :
    upsertUrlWithTags changedMetaHighlight [samplePage] "p9" =
      (false, [ApiCall.query (jsTrim changedMetaHighlight.url)],
        [samplePage]) :=
  C10_no_update_leaves_record_unchanged changedMetaHighlight [samplePage]
    "p9" samplePage (by decide) (by decide) (by decide) (by decide)

/-- Claim C4: when both guards pass and no existing page matches the url,
a single create request follows the query, carrying the base properties
and the incoming filtered tag list verbatim (unmerged); the destination
stores the new record with that payload (its `Tags` kept as a set); and
the call returns `true` exactly when the creation response carries a
(truthy) record identifier. -/
theorem C4_create_path (h : NormalizedHighlight) (db : List Page)
    (fid : String)
    (hu : jsTrim h.url ≠ "")
    (ht : h.tags.filter (fun t => t ≠ "") ≠ [])
    (hfind : findPageByUrl (jsTrim h.url) db = none) :
    (∃ base : BaseProperties,
      upsertUrlWithTags h db fid =
        ((fid != "" : Bool),
          [ApiCall.query (jsTrim h.url),
           ApiCall.create ⟨base, h.tags.filter (fun t => t ≠ "")⟩],
          db ++ [{ id := fid,
                   props := ⟨base,
                     dedupFirst (h.tags.filter (fun t => t ≠ ""))⟩ }])) ∧
    ((upsertUrlWithTags h db fid).1 = true ↔ fid ≠ "") := by
  refine ⟨⟨basePropertiesOf h (jsTrim h.url),
    upsert_of_not_found hu ht hfind⟩, ?_⟩
  rw [upsert_of_not_found hu ht hfind]
  simp [bne_iff_ne]

theorem C4_create_path_witness :
    (∃ base : BaseProperties,
      upsertUrlWithTags sampleHighlight [] "p1" =
        (("p1" != "" : Bool),
          [ApiCall.query (jsTrim sampleHighlight.url),
           ApiCall.create
             ⟨base, sampleHighlight.tags.filter (fun t => t ≠ "")⟩],
          [] ++ [{ id := "p1",
                   props := ⟨base,
                     dedupFirst (sampleHighlight.tags.filter
                       (fun t => t ≠ ""))⟩ }])) ∧
    ((upsertUrlWithTags sampleHighlight [] "p1").1 = true ↔
      ("p1" : String) ≠ "") :=
  C4_create_path sampleHighlight [] "p1" (by decide) (by decide) (by decide)

/-- Claim C1: when an existing page (with well-formed, duplicate-free tag
set) is found, the merged tag list is the union of existing and new tags in
first-seen order — the existing tags first, in their original order,
followed by the genuinely new tags in first-seen order; an update request
is issued exactly when the merged list differs from the existing one in
length or in some position; and the call returns `false` either way. -/
theorem C1_merge_update_condition (h : NormalizedHighlight) (db : List Page)
    (fid : String) (page : Page)
    (hu : jsTrim h.url ≠ "")
    (ht : h.tags.filter (fun t => t ≠ "") ≠ [])
    (hfind : findPageByUrl (jsTrim h.url) db = some page)
    (hnd : page.props.Tags.Nodup) :
    mergedTags page.props.Tags (h.tags.filter (fun t => t ≠ "")) =
        page.props.Tags ++
          (dedupFirst (h.tags.filter (fun t => t ≠ ""))).filter
            (fun t => t ∉ page.props.Tags) ∧
    (upsertUrlWithTags h db fid).1 = false ∧
    ((∃ pr, ApiCall.update page.id pr ∈ (upsertUrlWithTags h db fid).2.1) ↔
      (mergedTags page.props.Tags
          (h.tags.filter (fun t => t ≠ ""))).length ≠
          page.props.Tags.length ∨
        ∃ i : Nat,
          (mergedTags page.props.Tags (h.tags.filter (fun t => t ≠ "")))[i]? ≠
            page.props.Tags[i]?) := by
  refine ⟨mergedTags_eq_append hnd, ?_, ?_⟩
  · rw [upsert_of_found hu ht hfind]
    by_cases hN : needUpdateCheck
        (mergedTags page.props.Tags (h.tags.filter (fun t => t ≠ "")))
        page.props.Tags = true
    · rw [if_pos hN]
    · rw [if_neg hN]
  · rw [upsert_of_found hu ht hfind]
    by_cases hN : needUpdateCheck
        (mergedTags page.props.Tags (h.tags.filter (fun t => t ≠ "")))
        page.props.Tags = true
    · rw [if_pos hN]
      refine iff_of_true
        ⟨⟨basePropertiesOf h (jsTrim h.url),
          mergedTags page.props.Tags (h.tags.filter (fun t => t ≠ ""))⟩,
         by simp⟩ ?_
      exact list_ne_iff_length_or_getElem.mp (needUpdateCheck_eq_true_iff.mp hN)
    · rw [if_neg hN]
      refine iff_of_false ?_ ?_
      · rintro ⟨pr, hmem⟩
        simp at hmem
      · intro hdiff
        exact hN (needUpdateCheck_eq_true_iff.mpr
          (list_ne_iff_length_or_getElem.mpr hdiff))

theorem C1_merge_update_condition_witness :
    mergedTags samplePage.props.Tags
        (twoTagHighlight.tags.filter (fun t => t ≠ "")) =
      samplePage.props.Tags ++
        (dedupFirst (twoTagHighlight.tags.filter (fun t => t ≠ ""))).filter
          (fun t => t ∉ samplePage.props.Tags) ∧
    (upsertUrlWithTags twoTagHighlight [samplePage] "p9").1 = false ∧
    ((∃ pr, ApiCall.update samplePage.id pr ∈
        (upsertUrlWithTags twoTagHighlight [samplePage] "p9").2.1) ↔
      (mergedTags samplePage.props.Tags
          (twoTagHighlight.tags.filter (fun t => t ≠ ""))).length ≠
          samplePage.props.Tags.length ∨
        ∃ i : Nat,
          (mergedTags samplePage.props.Tags
            (twoTagHighlight.tags.filter (fun t => t ≠ "")))[i]? ≠
            samplePage.props.Tags[i]?) :=
  C1_merge_update_condition twoTagHighlight [samplePage] "p9" samplePage
    (by decide) (by decide) (by decide) (by decide)

/-- Claim C9: for a duplicate-free existing tag list, the implemented
update condition is equivalent to "some incoming tag is not already
present"; the merged list always extends the existing list (the existing
list is a prefix), so the positional disjunct of the implemented check can
only fire together with the length disjunct, never on its own. -/
theorem C9_update_condition_refinement (ex ts : List String)
    (hnd : ex.Nodup) :
    (needUpdateCheck (mergedTags ex ts) ex = true ↔ ∃ t ∈ ts, t ∉ ex) ∧
    (∃ rest, mergedTags ex ts = ex ++ rest) ∧
    ((List.range (mergedTags ex ts).length).any
        (fun i => decide ((mergedTags ex ts)[i]? ≠ ex[i]?)) = true →
      (mergedTags ex ts).length ≠ ex.length) := by
  have happ := @mergedTags_eq_append ex ts hnd
  refine ⟨?_, ⟨_, happ⟩, ?_⟩
  · rw [needUpdateCheck_eq_true_iff]
    constructor
    · intro hne
      by_contra hno
      push_neg at hno
      exact hne (mergedTags_eq_self hnd hno)
    · rintro ⟨t, htm, htn⟩ he
      apply htn
      have hmem : t ∈ mergedTags ex ts := mem_mergedTags.mpr (Or.inr htm)
      rwa [he] at hmem
  · intro hany hlen
    have hrest : ((dedupFirst ts).filter (fun x => x ∉ ex)).length = 0 := by
      have hle := congrArg List.length happ
      rw [List.length_append] at hle
      omega
    rw [happ, List.length_eq_zero.mp hrest, List.append_nil] at hany
    simp at hany

theorem C9_update_condition_refinement_witness :
    (needUpdateCheck (mergedTags ["t1"] ["t1", "t2"]) ["t1"] = true ↔
      ∃ t ∈ (["t1", "t2"] : List String), t ∉ (["t1"] : List String)) ∧
    (∃ rest, mergedTags ["t1"] ["t1", "t2"] = ["t1"] ++ rest) ∧
    ((List.range (mergedTags ["t1"] ["t1", "t2"]).length).any
        (fun i => decide ((mergedTags ["t1"] ["t1", "t2"])[i]? ≠
          (["t1"] : List String)[i]?)) = true →
      (mergedTags ["t1"] ["t1", "t2"]).length ≠
        (["t1"] : List String).length) :=
  C9_update_condition_refinement ["t1"] ["t1", "t2"] (by decide)

/-- Claim C5: for every highlight that reaches the write path, the base
properties carried by any update or create request satisfy: `Title` is the
trimmed book title, or the trimmed url when the trimmed title is empty;
`URL` is the trimmed url; and each of `Source`, `Book`, `Author` is
present exactly when `category`, `book_title`, `book_author` respectively
is non-empty, and is omitted (`none`), never sent empty, otherwise. -/
theorem C5_base_properties (h : NormalizedHighlight) (db : List Page)
    (fid : String)
    (hu : jsTrim h.url ≠ "")
    (ht : h.tags.filter (fun t => t ≠ "") ≠ []) :
    ∀ pr : PageProperties,
      ((∃ pid, ApiCall.update pid pr ∈ (upsertUrlWithTags h db fid).2.1) ∨
        ApiCall.create pr ∈ (upsertUrlWithTags h db fid).2.1) →
      pr.base.Title =
          (if jsTrim h.book_title = "" then jsTrim h.url
           else jsTrim h.book_title) ∧
      pr.base.URL = jsTrim h.url ∧
      (h.category ≠ "" → pr.base.Source = some h.category) ∧
      (h.category = "" → pr.base.Source = none) ∧
      (h.book_title ≠ "" → pr.base.Book = some h.book_title) ∧
      (h.book_title = "" → pr.base.Book = none) ∧
      (h.book_author ≠ "" → pr.base.Author = some h.book_author) ∧
      (h.book_author = "" → pr.base.Author = none) := by
  have key : ∀ pr : PageProperties,
      ((∃ pid, ApiCall.update pid pr ∈ (upsertUrlWithTags h db fid).2.1) ∨
        ApiCall.create pr ∈ (upsertUrlWithTags h db fid).2.1) →
      pr.base = basePropertiesOf h (jsTrim h.url) := by
    intro pr hpr
    cases hfind : findPageByUrl (jsTrim h.url) db with
    | some page =>
        rw [upsert_of_found hu ht hfind] at hpr
        by_cases hN : needUpdateCheck
            (mergedTags page.props.Tags (h.tags.filter (fun t => t ≠ "")))
            page.props.Tags = true
        · rw [if_pos hN] at hpr
          rcases hpr with ⟨pid, hmem⟩ | hmem
          · simp only [List.mem_cons, List.not_mem_nil, or_false] at hmem
            rcases hmem with h1 | h1
            · exact absurd h1 (by simp)
            · have := (ApiCall.update.injEq _ _ _ _).mp h1
              rw [this.2]
          · simp only [List.mem_cons, List.not_mem_nil, or_false] at hmem
            rcases hmem with h1 | h1
            · exact absurd h1 (by simp)
            · exact absurd h1 (by simp)
        · rw [if_neg hN] at hpr
          rcases hpr with ⟨pid, hmem⟩ | hmem <;> simp at hmem
    | none =>
        rw [upsert_of_not_found hu ht hfind] at hpr
        rcases hpr with ⟨pid, hmem⟩ | hmem
        · simp only [List.mem_cons, List.not_mem_nil, or_false] at hmem
          rcases hmem with h1 | h1
          · exact absurd h1 (by simp)
          · exact absurd h1 (by simp)
        · simp only [List.mem_cons, List.not_mem_nil, or_false] at hmem
          rcases hmem with h1 | h1
          · exact absurd h1 (by simp)
          · have := (ApiCall.create.injEq _ _).mp h1
            rw [this]
  intro pr hpr
  rw [key pr hpr]
  refine ⟨rfl, rfl, ?_, ?_, ?_, ?_, ?_, ?_⟩ <;>
    intro hc <;> simp [basePropertiesOf, hc]

theorem C5_base_properties_witness :
    (basePropertiesOf sampleHighlight (jsTrim sampleHighlight.url)).Title =
        (if jsTrim sampleHighlight.book_title = ""
         then jsTrim sampleHighlight.url
         else jsTrim sampleHighlight.book_title) ∧
    (basePropertiesOf sampleHighlight (jsTrim sampleHighlight.url)).Source =
        some sampleHighlight.category ∧
    (basePropertiesOf sampleHighlight (jsTrim sampleHighlight.url)).Author =
        none := by
  have happ := C5_base_properties sampleHighlight [] "p1"
    (by decide) (by decide)
    ⟨basePropertiesOf sampleHighlight (jsTrim sampleHighlight.url),
     sampleHighlight.tags.filter (fun t => t ≠ "")⟩
    (Or.inr (by rw [upsert_of_not_found (by decide) (by decide) (by decide)]
                simp))
  exact ⟨happ.1, happ.2.2.1 (by decide), happ.2.2.2.2.2.2.2 (by decide)⟩

/-- Claim C3: running `upsertUrlWithTags` twice in succession with the
same highlight and no concurrent external changes (destination pages carry
distinct ids, per the data model) leaves the destination record unchanged
after the second run: the second run issues no create and no update
request — the merged set it computes equals the record's existing set —
and returns `false`. -/
theorem C3_idempotent (h : NormalizedHighlight) (db : List Page)
    (fid1 fid2 : String)
    (hids : (db.map Page.id).Nodup) :
    (upsertUrlWithTags h (upsertUrlWithTags h db fid1).2.2 fid2).2.2 =
        (upsertUrlWithTags h db fid1).2.2 ∧
    (∀ pid pr, ApiCall.update pid pr ∉
        (upsertUrlWithTags h (upsertUrlWithTags h db fid1).2.2 fid2).2.1) ∧
    (∀ pr, ApiCall.create pr ∉
        (upsertUrlWithTags h (upsertUrlWithTags h db fid1).2.2 fid2).2.1) ∧
    (upsertUrlWithTags h (upsertUrlWithTags h db fid1).2.2 fid2).1 =
      false := by
  by_cases hu : jsTrim h.url = ""
  · rw [upsert_of_url_empty hu]
    exact ⟨rfl, fun pid pr => List.not_mem_nil _,
      fun pr => List.not_mem_nil _, rfl⟩
  · by_cases ht : h.tags.filter (fun t => t ≠ "") = []
    · rw [upsert_of_tags_empty ht]
      exact ⟨rfl, fun pid pr => List.not_mem_nil _,
        fun pr => List.not_mem_nil _, rfl⟩
    · cases hfind : findPageByUrl (jsTrim h.url) db with
      | none =>
          rw [upsert_of_not_found hu ht hfind]
          dsimp only
          have hfind2 : findPageByUrl (jsTrim h.url)
              (db ++ [Page.mk fid1 ⟨basePropertiesOf h (jsTrim h.url),
                dedupFirst (h.tags.filter (fun t => t ≠ ""))⟩]) =
              some (Page.mk fid1 ⟨basePropertiesOf h (jsTrim h.url),
                dedupFirst (h.tags.filter (fun t => t ≠ ""))⟩) := by
            rw [findPageByUrl_append_of_none hfind, findPageByUrl]
            simp [basePropertiesOf]
          rw [upsert_of_found hu ht hfind2]
          have hm : mergedTags
              (dedupFirst (h.tags.filter (fun t => t ≠ "")))
              (h.tags.filter (fun t => t ≠ "")) =
              dedupFirst (h.tags.filter (fun t => t ≠ "")) :=
            mergedTags_eq_self (dedupFirst_nodup _)
              (fun t htm => mem_dedupFirst.mpr htm)
          rw [show (Page.mk fid1 ⟨basePropertiesOf h (jsTrim h.url),
                dedupFirst (h.tags.filter (fun t => t ≠ ""))⟩).props.Tags =
              dedupFirst (h.tags.filter (fun t => t ≠ "")) from rfl, hm,
            if_neg (by rw [needUpdateCheck_self]; simp)]
          exact ⟨rfl, fun pid pr => by simp, fun pr => by simp, rfl⟩
      | some page =>
          by_cases hN : needUpdateCheck
              (mergedTags page.props.Tags
                (h.tags.filter (fun t => t ≠ "")))
              page.props.Tags = true
          · rw [upsert_of_found hu ht hfind, if_pos hN]
            dsimp only
            have hfind2 := @findPageByUrl_updatePage (jsTrim h.url)
              ⟨basePropertiesOf h (jsTrim h.url),
                mergedTags page.props.Tags
                  (h.tags.filter (fun t => t ≠ ""))⟩
              rfl db page hids hfind
            rw [upsert_of_found hu ht hfind2]
            have hPt : (applyUpdate page
                ⟨basePropertiesOf h (jsTrim h.url),
                 mergedTags page.props.Tags
                   (h.tags.filter (fun t => t ≠ ""))⟩).props.Tags =
                mergedTags page.props.Tags
                  (h.tags.filter (fun t => t ≠ "")) :=
              dedupFirst_eq_self (mergedTags_nodup _ _)
            rw [hPt, mergedTags_idem,
              if_neg (by rw [needUpdateCheck_self]; simp)]
            exact ⟨rfl, fun pid pr => by simp, fun pr => by simp, rfl⟩
          · rw [upsert_of_found hu ht hfind, if_neg hN]
            dsimp only
            rw [upsert_of_found hu ht hfind, if_neg hN]
            exact ⟨rfl, fun pid pr => by simp, fun pr => by simp, rfl⟩

theorem C3_idempotent_witness :
    (upsertUrlWithTags dupTagHighlight
        (upsertUrlWithTags dupTagHighlight [] "p1").2.2 "p2").2.2 =
        (upsertUrlWithTags dupTagHighlight [] "p1").2.2 ∧
    (∀ pid pr, ApiCall.update pid pr ∉
        (upsertUrlWithTags dupTagHighlight
          (upsertUrlWithTags dupTagHighlight [] "p1").2.2 "p2").2.1) ∧
    (∀ pr, ApiCall.create pr ∉
        (upsertUrlWithTags dupTagHighlight
          (upsertUrlWithTags dupTagHighlight [] "p1").2.2 "p2").2.1) ∧
    (upsertUrlWithTags dupTagHighlight
        (upsertUrlWithTags dupTagHighlight [] "p1").2.2 "p2").1 = false :=
  C3_idempotent dupTagHighlight [] "p1" "p2" (by decide)


/-- The claim's description of the tag-shape cleaning, per entry: a bare
string is kept, the `name` of a tag object whose name is a string is kept,
every other shape is dropped, and falsy (empty) results are filtered out.
`C7_normalized_record` proves it equivalent to the code's map-then-filter
pipeline. -/
def specTagName : RawTag → Option String
  | .str s => if s = "" then none else some s
  | .nameObj n => if n = "" then none else some n
  | .malformed => none

/-- Claim C7: each normalized record keeps exactly the bare-string tags and
the string `name` fields of tag objects (dropping every other shape and
every falsy result) without deduplicating; its `highlighted_at` is the raw
`highlighted_at`, else the raw `created_at`, else `null`; and its
`location` is the raw location unchanged (including `null`), never
defaulted to the empty string. -/
theorem C7_normalized_record (book : RawBook) (h : RawHighlight) :
    (normalizeBookHighlight book h).tags =
        (h.tags.getD []).filterMap specTagName ∧
    (∀ s : String, s ≠ "" →
      (normalizeBookHighlight book h).tags.count s =
        ((h.tags.getD []).map tagToString).count s) ∧
    (jsTruthy h.highlighted_at = true →
      (normalizeBookHighlight book h).highlighted_at = h.highlighted_at) ∧
    (jsTruthy h.highlighted_at = false → jsTruthy h.created_at = true →
      (normalizeBookHighlight book h).highlighted_at = h.created_at) ∧
    (jsTruthy h.highlighted_at = false → jsTruthy h.created_at = false →
      (normalizeBookHighlight book h).highlighted_at = none) ∧
    (normalizeBookHighlight book h).location = h.location := by
  refine ⟨?_, ?_, ?_, ?_, ?_, rfl⟩
  · show normalizeTags h.tags = _
    rw [normalizeTags]
    induction h.tags.getD [] with
    | nil => rfl
    | cons t ts ih =>
        rw [List.map_cons]
        cases t with
        | str s =>
            by_cases hs : s = ""
            · rw [List.filterMap_cons_none
                  (show specTagName (RawTag.str s) = none by
                    simp [specTagName, hs]),
                List.filter_cons_of_neg (by simp [tagToString, hs])]
              exact ih
            · rw [List.filterMap_cons_some
                  (show specTagName (RawTag.str s) = some s by
                    simp [specTagName, hs]),
                List.filter_cons_of_pos (by simp [tagToString, hs]), ih]
              rfl
        | nameObj n =>
            by_cases hn : n = ""
            · rw [List.filterMap_cons_none
                  (show specTagName (RawTag.nameObj n) = none by
                    simp [specTagName, hn]),
                List.filter_cons_of_neg (by simp [tagToString, hn])]
              exact ih
            · rw [List.filterMap_cons_some
                  (show specTagName (RawTag.nameObj n) = some n by
                    simp [specTagName, hn]),
                List.filter_cons_of_pos (by simp [tagToString, hn]), ih]
              rfl
        | malformed =>
            rw [List.filterMap_cons_none
                  (show specTagName RawTag.malformed = none by
                    simp [specTagName]),
              List.filter_cons_of_neg (by simp [tagToString])]
            exact ih
  · intro s hs
    exact List.count_filter (by simpa using hs)
  · intro hh
    show (if jsTruthy h.highlighted_at then h.highlighted_at
          else if jsTruthy h.created_at then h.created_at else none) = _
    rw [if_pos hh]
  · intro hh hc
    show (if jsTruthy h.highlighted_at then h.highlighted_at
          else if jsTruthy h.created_at then h.created_at else none) = _
    rw [if_neg (by simp [hh]), if_pos hc]
  · intro hh hc
    show (if jsTruthy h.highlighted_at then h.highlighted_at
          else if jsTruthy h.created_at then h.created_at else none) = _
    rw [if_neg (by simp [hh]), if_neg (by simp [hc])]

/-- A raw highlight exercising every tag shape, an empty-string
`highlighted_at` and a present `created_at`. -/
def sampleRawHighlight : RawHighlight :=
  { id := "1", text := some "txt", note := none, location := some "12",
    highlighted_at := some "", created_at := some "2020-01-01",
    url := some "https://x.com",
    tags := some [RawTag.str "a", RawTag.nameObj "a", RawTag.malformed,
      RawTag.str ""] }

/-- A raw book for the normalizer witnesses. -/
def sampleRawBook : RawBook :=
  { title := some "Book A", author := none,
    source_url := some "https://s.com", category := some "books",
    highlights := some [sampleRawHighlight] }

theorem C7_normalized_record_witness :
    (normalizeBookHighlight sampleRawBook sampleRawHighlight).tags.count "a" =
        ((sampleRawHighlight.tags.getD []).map tagToString).count "a" ∧
    (normalizeBookHighlight sampleRawBook
        sampleRawHighlight).highlighted_at = sampleRawHighlight.created_at :=
  ⟨(C7_normalized_record sampleRawBook sampleRawHighlight).2.1 "a"
      (by decide),
   (C7_normalized_record sampleRawBook sampleRawHighlight).2.2.2.1
      (by decide) (by decide)⟩

/-- The two-page Readwise source used by the pagination witness: the first
page links to cursor `cursor-1`, the second page is final. -/
def twoPageSource : Option String → ExportPage :=
  fun c =>
    match c with
    | none => { results := none, nextPageCursor := some "cursor-1" }
    | some _ => { results := none, nextPageCursor := none }

/-- Claim C8: if the source eventually reports a falsy `nextPageCursor`,
the orchestrator's loop performs finitely many fetches; the first fetch is
made with the `null` cursor, whose `pageCursor` request parameter is
omitted; every later fetch carries exactly the `nextPageCursor` returned
by the previous page (and includes it in the request); and a source with
two cursor-linked pages yields exactly two fetches, the second with the
first page's cursor. -/
theorem C8_pagination (src : Option String → ExportPage) (n : Nat)
    (hstop : jsTruthy
      (src (cursorIterFrom src none n)).nextPageCursor = false) :
    (∃ calls : List (Option String),
        mainFetchCalls src (n + 1) none = some calls ∧
        calls.head? = some none ∧
        fetchReadwiseParams none = none ∧
        List.Chain'
          (fun a b => b = (src a).nextPageCursor ∧
            fetchReadwiseParams b = b) calls) ∧
    (jsTruthy (src none).nextPageCursor = true →
      jsTruthy (src ((src none).nextPageCursor)).nextPageCursor = false →
      mainFetchCalls src 2 none =
        some [none, (src none).nextPageCursor]) := by
  constructor
  · obtain ⟨calls, hc⟩ := mainFetchCalls_of_stop src n none hstop
    obtain ⟨hd, hch⟩ := mainFetchCalls_spec src (n + 1) none calls hc
    refine ⟨calls, hc, hd, rfl, ?_⟩
    exact hch.imp
      (fun a b hab => ⟨hab.1, fetchReadwiseParams_of_truthy hab.2⟩)
  · intro h1 h2
    rw [mainFetchCalls_succ, if_pos h1, mainFetchCalls_succ,
      if_neg (by simp [h2])]
    rfl

theorem C8_pagination_witness :
    (∃ calls : List (Option String),
        mainFetchCalls twoPageSource 2 none = some calls ∧
        calls.head? = some none ∧
        fetchReadwiseParams none = none ∧
        List.Chain'
          (fun a b => b = (twoPageSource a).nextPageCursor ∧
            fetchReadwiseParams b = b) calls) ∧
    mainFetchCalls twoPageSource 2 none =
      some [none, some "cursor-1"] :=
  ⟨(C8_pagination twoPageSource 1 (by decide)).1,
   (C8_pagination twoPageSource 1 (by decide)).2 (by decide) (by decide)⟩

end RWSync
